import Mathlib

/-!
Verification of the star-field compute core (`src/wasm/src/math.rs`,
`src/wasm/src/star_field.rs`).

Modelling conventions
=====================
* `f32` values are idealized as exact rationals (`ℚ`): decimal literals of the
  source are taken at their exact decimal value, and arithmetic (`+`, `-`, `*`,
  `/`, `%`, `floor`) is exact rational arithmetic.  The one named machine
  constant, `std::f32::consts::PI`, has no exact decimal form; it is embedded
  as its exact IEEE-754 single-precision value `13176795 / 4194304`
  (bit pattern 0x40490FDB).
* The transcendental library routines (`f32::sin`, `f32::cos`, `f32::acos`)
  have no exact rational semantics; every definition that reaches one of them
  is parameterized by an abstract function (`s` for `sin`, `c` for `cos`,
  `a` for `acos`).  The sine lookup table of `math.rs` is built from the same
  library `sin` (`ensure_sin_table_initialized` pushes `angle.sin()`), so a
  single parameter `s` covers both the table contents and the direct calls.
* Buffers (`Vec<f32>`, `&mut [f32]`, `Vec<u64>`) are embedded as Lean lists;
  in-place mutation becomes explicit state passing (a function from the old
  buffer to the new one).  `u64` words are naturals; the `u64` complement
  `!x` is embedded as `(2^64 - 1) ^^^ x`.
-/

/-- `SIN_TABLE_SIZE` from `math.rs`: the sine lookup table has 1024 entries. -/
def SIN_TABLE_SIZE : ℕ := 1024

/-- The exact rational value of `std::f32::consts::PI` (IEEE-754 single
precision, bit pattern 0x40490FDB). -/
def PI32 : ℚ := 13176795 / 4194304

/-- Truncation toward zero, the rounding used by Rust's float `%` operator. -/
def rtrunc (q : ℚ) : ℤ := if 0 ≤ q then ⌊q⌋ else ⌈q⌉

/-- Rust's float remainder `x % y`: `x - y * trunc (x / y)` (sign of the
dividend).  Idealized over `ℚ`. -/
def frem (x y : ℚ) : ℚ := x - y * rtrunc (x / y)

/-- The table index computed by `fast_sin_lookup` (`math.rs` lines 46-48):
normalize `x` into `[0, 2π)` by `((x % 2π) + 2π) % 2π`, scale to a table
index (the `as usize` cast of a nonnegative float is `toNat ∘ floor`), and
clamp with `.min(SIN_TABLE_SIZE - 1)`. -/
def fastSinIdx (x : ℚ) : ℕ :=
  let t : ℚ := PI32 * 2
  let normalized : ℚ := frem (frem x t + t) t
  min (Int.toNat ⌊normalized / t * (SIN_TABLE_SIZE : ℚ)⌋) (SIN_TABLE_SIZE - 1)

/-- Entry `i` of the sine table (`ensure_sin_table_initialized`, `math.rs`
lines 19-23): the library sine `s` evaluated at `(i / 1024) * π * 2`. -/
def tableVal (s : ℚ → ℚ) (i : ℕ) : ℚ := s ((i : ℚ) / (SIN_TABLE_SIZE : ℚ) * PI32 * 2)

/-- `get_sin_value` (`math.rs` lines 30-41): read table entry `index`,
defaulting to `0.0` out of range (`unwrap_or(0.0)`). -/
def get_sin_value (s : ℚ → ℚ) (index : ℕ) : ℚ :=
  if index < SIN_TABLE_SIZE then tableVal s index else 0

/-- `fast_sin_lookup` (`math.rs` lines 45-50): table lookup at `fastSinIdx x`. -/
def fast_sin_lookup (s : ℚ → ℚ) (x : ℚ) : ℚ := get_sin_value s (fastSinIdx x)

/-- `seed_random` (`math.rs` lines 137-140):
`frac((i * 12.9898 + 78.233).sin() * 43758.5453)`.  Note the **direct**
library sine, not the table lookup. -/
def seed_random (s : ℚ → ℚ) (i : ℤ) : ℚ :=
  let x : ℚ := s ((i : ℚ) * (129898 / 10000) + 78233 / 1000) * (437585453 / 10000)
  x - ⌊x⌋

/-- `seed_random_simd_batch_16` (`math.rs` lines 178-210): lanes are the 16
indices `start .. start+15`; `x = indices * 12.9898 + 78.233`; the sine is the
**table lookup** `fast_sin_lookup_simd_16` (lane-wise `fast_sin_lookup`);
result is `frac(sin_results * 43758.5453)` lane-wise. -/
def seed_random_simd_batch_16 (s : ℚ → ℚ) (start : ℤ) : List ℚ :=
  let indices : List ℚ := (List.range 16).map (fun (j : ℕ) => (start : ℚ) + (j : ℚ))
  let x_values := indices.map (fun q => q * (129898 / 10000) + 78233 / 1000)
  let sin_results := x_values.map (fast_sin_lookup s)
  let scaled := sin_results.map (fun q => q * (437585453 / 10000))
  scaled.map (fun q => q - ⌊q⌋)

/-- The index produced by `fastSinIdx` is always a valid table index. -/
theorem fastSinIdx_lt (x : ℚ) : fastSinIdx x < SIN_TABLE_SIZE := by
  have h : fastSinIdx x ≤ SIN_TABLE_SIZE - 1 := min_le_right _ _
  unfold SIN_TABLE_SIZE at h ⊢
  omega

/-- `fast_sin_lookup` always reads a genuine table entry. -/
theorem fast_sin_lookup_eq_tableVal (s : ℚ → ℚ) (x : ℚ) :
    fast_sin_lookup s x = tableVal s (fastSinIdx x) := by
  unfold fast_sin_lookup get_sin_value
  rw [if_pos (fastSinIdx_lt x)]

/-- A constant sine model is a fixed point of the table lookup. -/
theorem fast_sin_lookup_const (k : ℚ) (x : ℚ) :
    fast_sin_lookup (fun _ => k) x = k := by
  rw [fast_sin_lookup_eq_tableVal]; rfl

/-- Lane `j` of the 16-wide batch, as a per-index function: the same
`frac(sin(i * 12.9898 + 78.233) * 43758.5453)` formula as `seed_random`,
but with the table lookup in place of the direct sine. -/
def seed_random_table (s : ℚ → ℚ) (i : ℤ) : ℚ :=
  let x : ℚ := fast_sin_lookup s ((i : ℚ) * (129898 / 10000) + 78233 / 1000) * (437585453 / 10000)
  x - ⌊x⌋

theorem seed_random_simd_batch_16_getD (s : ℚ → ℚ) (start : ℤ) (j : ℕ)
    (hj : j < 16) :
    (seed_random_simd_batch_16 s start).getD j 0 = seed_random_table s (start + j) := by
  unfold seed_random_simd_batch_16
  simp only [List.map_map, List.getD_eq_getElem?_getD, List.getElem?_map,
    List.getElem?_range hj, Option.map_some', Option.getD_some, Function.comp]
  unfold seed_random_table
  push_cast
  ring_nf

/-- A concrete instantiation of the abstract library-sine parameter, used in
counterexamples.  The true `f32::sin` has no exact rational semantics, so the
claims quantify over the sine model; this step function already separates the
direct-sine call sites from the table-lookup call sites: it is `1/2` on the
table's angle range `[0, 2π)` and `0` at the large arguments fed to
`seed_random`. -/
def sinModelA : ℚ → ℚ := fun q => if q < 10 then 1 / 2 else 0

/-- Every angle stored in the table lies in `[0, 2π) ⊆ [0, 10)`, so the table
lookup under `sinModelA` is constantly `1/2` — while direct applications of
`sinModelA` to the large seed arguments give `0`. -/
theorem fast_sin_lookup_sinModelA (y : ℚ) : fast_sin_lookup sinModelA y = 1 / 2 := by
  rw [fast_sin_lookup_eq_tableVal]
  unfold tableVal sinModelA
  have h : ((fastSinIdx y : ℕ) : ℚ) < 1024 := by
    exact_mod_cast fastSinIdx_lt y
  have h0 : (0 : ℚ) ≤ ((fastSinIdx y : ℕ) : ℚ) := by positivity
  rw [if_pos (by unfold SIN_TABLE_SIZE PI32; push_cast; nlinarith)]

/-- C1 counterexample: the scalar generator `seed_random` applies the library
sine directly to `i * 12.9898 + 78.233`, while lane `j` of
`seed_random_simd_batch_16` applies the 1024-entry table lookup
(`fast_sin_lookup_simd_16`) to the same argument.  At `start = 0`, lane 0
(index `i = 0`) the two disagree: the direct call sees the raw argument
`78.233` while the lookup sees the quantized table angle `≈ 2.828`. -/
theorem seed_random_lane_counterexample :
    (seed_random_simd_batch_16 sinModelA 0).getD 0 0 ≠ seed_random sinModelA 0 := by
  rw [seed_random_simd_batch_16_getD sinModelA 0 0 (by norm_num)]
  unfold seed_random_table seed_random
  rw [fast_sin_lookup_sinModelA]
  norm_num [sinModelA]

/-- C1 (amended): lane `j` of `seed_random_simd_batch_16 start` computes the
same `frac(sin(i * 12.9898 + 78.233) * 43758.5453)` formula as
`seed_random i` for `i = start + j`, with the table lookup
`fast_sin_lookup` in place of the direct sine; the two generators agree at
every index exactly when the sine model agrees with its own table lookup at
the seed arguments (which the direct `f32::sin` does not in general). -/
theorem seed_random_simd_lane_agrees (s : ℚ → ℚ)
    (hs : ∀ x, s x = fast_sin_lookup s x) (start : ℤ) (j : ℕ) (hj : j < 16) :
    (seed_random_simd_batch_16 s start).getD j 0 = seed_random s (start + (j : ℤ)) := by
  rw [seed_random_simd_batch_16_getD s start j hj]
  unfold seed_random_table seed_random
  rw [← hs]

/-- Concrete instance of the amended C1 theorem: for a sine model that is its
own table lookup (a constant model), lane 7 of the batch at `start = 5`
equals `seed_random 12`. -/
theorem seed_random_simd_lane_agrees_witness :
    (seed_random_simd_batch_16 (fun _ => (1 / 2 : ℚ)) 5).getD 7 0 =
      seed_random (fun _ => (1 / 2 : ℚ)) (5 + (7 : ℤ)) :=
  seed_random_simd_lane_agrees _ (fun x => (fast_sin_lookup_const _ x).symm) 5 7 (by norm_num)

/-- The per-index value the SIMD batch path of
`generate_star_positions_simd_direct` (`star_field.rs` lines 398-449) produces
for global index `g` (lane `g - base` of the chunk starting at `base`): the
three random draws are table-lookup-based batch lanes
(`seed_random_simd_batch_16` at offsets 0/1000/2000, cf.
`seed_random_simd_batch_16_getD`), `acos` is the direct library call `a`
applied lane-wise, and all four trigonometric factors are table lookups
(`fast_sin_lookup_simd_16`), with cosine as `sin(x + π/2)`. -/
def simd_pos_lane (s a : ℚ → ℚ) (min_radius max_radius : ℚ) (g : ℤ) : ℚ × ℚ × ℚ :=
  let radius := min_radius + seed_random_table s g * (max_radius - min_radius)
  let theta := seed_random_table s (g + 1000) * (PI32 * 2)
  let phi := a (2 * seed_random_table s (g + 2000) - 1)
  let sin_phi := fast_sin_lookup s phi
  let cos_phi := fast_sin_lookup s (phi + PI32 / 2)
  let sin_theta := fast_sin_lookup s theta
  let cos_theta := fast_sin_lookup s (theta + PI32 / 2)
  (radius * sin_phi * cos_theta, radius * sin_phi * sin_theta, radius * cos_phi)

/-- The scalar tail of `generate_star_positions_simd_direct` (`star_field.rs`
lines 452-465) for global index `g`: the random draws are the **direct-sine**
`seed_random`, and the trigonometric factors are the **direct** library calls
`phi.sin()`, `theta.cos()` etc. (`s`, `c`), not table lookups. -/
def scalar_tail_pos (s c a : ℚ → ℚ) (min_radius max_radius : ℚ) (g : ℤ) : ℚ × ℚ × ℚ :=
  let radius := min_radius + seed_random s g * (max_radius - min_radius)
  let theta := seed_random s (g + 1000) * (PI32 * 2)
  let phi := a (2 * seed_random s (g + 2000) - 1)
  (radius * s phi * c theta, radius * s phi * s theta, radius * c phi)

/-- `generate_star_positions_simd_direct` (`star_field.rs` lines 380-466):
indices below `(count / 16) * 16` are written by the 16-wide SIMD chunks
(per-index value `simd_pos_lane`), the remainder below `count` by the scalar
tail (`scalar_tail_pos`), and slots at `count` and above keep their previous
contents. -/
def generate_star_positions_simd_direct (s c a : ℚ → ℚ)
    (positions_x positions_y positions_z : List ℚ) (count : ℕ)
    (min_radius max_radius : ℚ) : List ℚ × List ℚ × List ℚ :=
  let write := fun (old : List ℚ) (pick : ℚ × ℚ × ℚ → ℚ) =>
    (List.range old.length).map (fun i =>
      if i < count / 16 * 16 then pick (simd_pos_lane s a min_radius max_radius i)
      else if i < count then pick (scalar_tail_pos s c a min_radius max_radius i)
      else old.getD i 0)
  (write positions_x (fun p => p.1), write positions_y (fun p => p.2.1),
    write positions_z (fun p => p.2.2))

/-- A concrete instantiation of the abstract library-cosine parameter, used in
counterexamples. -/
def cosModelA : ℚ → ℚ := fun _ => 1

/-- A concrete instantiation of the abstract library-arccosine parameter, used
in counterexamples. -/
def acosModelA : ℚ → ℚ := fun _ => 0

/-- C2 counterexample: for `count = 1` (not a multiple of 16) the whole
generation runs through the scalar tail, and its value for star 0 is not
bit-identical to what the SIMD batch path would produce for index 0 with the
same `min_radius = 20`, `max_radius = 150`: the tail draws its radius and
trigonometric factors from the direct library calls, the batch path from the
1024-entry table lookup, and the two sides of the x component differ. -/
theorem generate_tail_counterexample :
    scalar_tail_pos sinModelA cosModelA acosModelA 20 150 0 ≠
      simd_pos_lane sinModelA acosModelA 20 150 0 := by
  intro h
  have hx := congrArg Prod.fst h
  simp only [scalar_tail_pos, simd_pos_lane, seed_random, seed_random_table,
    fast_sin_lookup_sinModelA, acosModelA, cosModelA] at hx
  norm_num [sinModelA] at hx

/-- C2 (amended): the scalar tail of `generate_star_positions_simd_direct`
computes the same spherical-shell construction as the SIMD batch path, with
the direct library sine/cosine (and the direct-sine `seed_random`) in place of
the table lookups; its output for an index is bit-identical to the SIMD
lane's exactly when the direct evaluations agree with the corresponding table
lookups — which the `f32` library calls do not in general. -/
theorem generate_tail_agrees (s c a : ℚ → ℚ)
    (hs : ∀ x, s x = fast_sin_lookup s x)
    (hc : ∀ x, c x = fast_sin_lookup s (x + PI32 / 2))
    (min_radius max_radius : ℚ) (g : ℤ) :
    scalar_tail_pos s c a min_radius max_radius g =
      simd_pos_lane s a min_radius max_radius g := by
  unfold scalar_tail_pos simd_pos_lane
  simp only [seed_random, seed_random_table, hs, hc]

/-- Concrete instance of the amended C2 theorem: for sine/cosine models that
are their own table lookups (constant models), the scalar tail and the SIMD
lane agree at index 3 with `min_radius = 20`, `max_radius = 150`. -/
theorem generate_tail_agrees_witness :
    scalar_tail_pos (fun _ => (1 / 2 : ℚ)) (fun _ => (1 / 2 : ℚ)) (fun q => q) 20 150 3 =
      simd_pos_lane (fun _ => (1 / 2 : ℚ)) (fun q => q) 20 150 3 :=
  generate_tail_agrees _ _ _ (fun x => (fast_sin_lookup_const _ x).symm)
    (fun _ => (fast_sin_lookup_const _ _).symm) 20 150 3

/-- Helper: reading a list built as `map f (range n)` below `n`. -/
theorem getD_range_map {α : Type} (n : ℕ) (f : ℕ → α) (d : α) (i : ℕ) (h : i < n) :
    ((List.range n).map f).getD i d = f i := by
  simp [List.getD_eq_getElem?_getD, List.getElem?_map, List.getElem?_range h]

/-- The table lookup can never exceed the bound of the stored sine values. -/
theorem abs_fast_sin_lookup_le (s : ℚ → ℚ) (hs : ∀ q, |s q| ≤ 1) (x : ℚ) :
    |fast_sin_lookup s x| ≤ 1 := by
  rw [fast_sin_lookup_eq_tableVal]; exact hs _

/-- Twinkle base of the per-frame effect engine (`star_field.rs` lines
682-683 and the lane-wise lines 556-563):
`fast_sin_lookup(time*3 + x*10 + y*10) * 0.3 + 0.7`. -/
def twinkle_base_calc (s : ℚ → ℚ) (time x y : ℚ) : ℚ :=
  fast_sin_lookup s (time * 3 + x * 10 + y * 10) * (3 / 10) + 7 / 10

/-- Sparkle phase (`star_field.rs` line 684):
`fast_sin_lookup(time*15 + x*20 + y*30)`. -/
def sparkle_phase_calc (s : ℚ → ℚ) (time x y : ℚ) : ℚ :=
  fast_sin_lookup s (time * 15 + x * 20 + y * 30)

/-- Sparkle of the per-frame effect engine (`star_field.rs` lines 685-689):
`(phase - 0.98) / 0.02` when `phase > 0.98`, else `0`. -/
def sparkle_calc (s : ℚ → ℚ) (time x y : ℚ) : ℚ :=
  if sparkle_phase_calc s time x y > 98 / 100 then
    (sparkle_phase_calc s time x y - 98 / 100) / (2 / 100)
  else 0

/-- One SIMD lane of the twinkle computation (`star_field.rs` lines 556-563):
identical to the scalar formula with `time_3 = time * 3` precomputed. -/
def twinkle_lane (s : ℚ → ℚ) (time_3 x y : ℚ) : ℚ :=
  fast_sin_lookup s (time_3 + x * 10 + y * 10) * (3 / 10) + 7 / 10

/-- One SIMD lane of the sparkle computation (`star_field.rs` lines 566-579):
the lane multiplies by `50.0` (`// 1.0 / 0.02`) where the scalar tail divides
by `0.02`. -/
def sparkle_lane (s : ℚ → ℚ) (time_15 x y : ℚ) : ℚ :=
  let p := fast_sin_lookup s (time_15 + x * 20 + y * 30)
  if p > 98 / 100 then (p - 98 / 100) * 50 else 0

/-- SIMD lanes and the scalar tail compute the same twinkle value. -/
theorem twinkle_lane_eq (s : ℚ → ℚ) (time x y : ℚ) :
    twinkle_lane s (time * 3) x y = twinkle_base_calc s time x y := rfl

/-- SIMD lanes and the scalar tail compute the same sparkle value (over exact
arithmetic, `* 50` and `/ 0.02` coincide). -/
theorem sparkle_lane_eq (s : ℚ → ℚ) (time x y : ℚ) :
    sparkle_lane s (time * 15) x y = sparkle_calc s time x y := by
  unfold sparkle_lane sparkle_calc sparkle_phase_calc
  show (if fast_sin_lookup s (time * 15 + x * 20 + y * 30) > 98 / 100 then
      (fast_sin_lookup s (time * 15 + x * 20 + y * 30) - 98 / 100) * 50 else 0) = _
  by_cases h : fast_sin_lookup s (time * 15 + x * 20 + y * 30) > 98 / 100
  · rw [if_pos h, if_pos h]; ring
  · rw [if_neg h, if_neg h]

/-- `calculate_effects_into_buffers_simd` (`star_field.rs` lines 519-694).
The SIMD chunks — including the two-chunks-at-a-time unrolled loop — write the
lane values `twinkle_lane`/`sparkle_lane` to indices `[0, (count/16)*16)`, the
scalar tail writes the (pointwise equal, cf. `twinkle_lane_eq` /
`sparkle_lane_eq`) scalar formulas to `[(count/16)*16, count)`, and slots at
`count` and above keep their previous contents; the net effect on the two
output buffers is this index map. -/
def calculate_effects_into_buffers_simd (s : ℚ → ℚ)
    (positions_x positions_y twinkles sparkles : List ℚ) (count : ℕ)
    (time : ℚ) : List ℚ × List ℚ :=
  ((List.range twinkles.length).map (fun i =>
      if i < count then
        twinkle_base_calc s time (positions_x.getD i 0) (positions_y.getD i 0) +
          sparkle_calc s time (positions_x.getD i 0) (positions_y.getD i 0)
      else twinkles.getD i 0),
    (List.range sparkles.length).map (fun i =>
      if i < count then sparkle_calc s time (positions_x.getD i 0) (positions_y.getD i 0)
      else sparkles.getD i 0))

/-- C3: for every time and star position, sparkle lies in `[0, 1]` and is `0`
whenever the looked-up phase is at most `0.98`; the twinkle base
`sin(t*3 + x*10 + y*10) * 0.3 + 0.7` lies in `[0.4, 1.0]`; and the effect
engine stores `twinkle_base + sparkle` in the twinkle buffer and the sparkle
alone in the sparkle buffer.  (The hypothesis `|s q| ≤ 1` holds for the real
table: its entries are sines.) -/
theorem effects_bounds_and_storage (s : ℚ → ℚ) (hs : ∀ q, |s q| ≤ 1)
    (time x y : ℚ) (positions_x positions_y twinkles sparkles : List ℚ)
    (count i : ℕ) (hic : i < count) (hit : i < twinkles.length)
    (his : i < sparkles.length)
    (hx : positions_x.getD i 0 = x) (hy : positions_y.getD i 0 = y) :
    0 ≤ sparkle_calc s time x y ∧ sparkle_calc s time x y ≤ 1 ∧
    (sparkle_phase_calc s time x y ≤ 98 / 100 → sparkle_calc s time x y = 0) ∧
    2 / 5 ≤ twinkle_base_calc s time x y ∧ twinkle_base_calc s time x y ≤ 1 ∧
    (calculate_effects_into_buffers_simd s positions_x positions_y twinkles
        sparkles count time).1.getD i 0
      = twinkle_base_calc s time x y + sparkle_calc s time x y ∧
    (calculate_effects_into_buffers_simd s positions_x positions_y twinkles
        sparkles count time).2.getD i 0
      = sparkle_calc s time x y := by
  have hp : |sparkle_phase_calc s time x y| ≤ 1 := abs_fast_sin_lookup_le s hs _
  have hp1 : sparkle_phase_calc s time x y ≤ 1 := (abs_le.mp hp).2
  have hp0 : -1 ≤ sparkle_phase_calc s time x y := (abs_le.mp hp).1
  have ht : |fast_sin_lookup s (time * 3 + x * 10 + y * 10)| ≤ 1 :=
    abs_fast_sin_lookup_le s hs _
  have ht1 := (abs_le.mp ht).2
  have ht0 := (abs_le.mp ht).1
  have hdiv : ∀ q : ℚ, q / (2 / 100) = q * 50 := fun q => by ring
  refine ⟨?_, ?_, ?_, ?_, ?_, ?_, ?_⟩
  · unfold sparkle_calc
    split
    · rw [hdiv]; linarith
    · exact le_rfl
  · unfold sparkle_calc
    split
    · rw [hdiv]; linarith
    · linarith
  · intro hle
    unfold sparkle_calc
    rw [if_neg (by linarith)]
  · unfold twinkle_base_calc; linarith
  · unfold twinkle_base_calc; linarith
  · unfold calculate_effects_into_buffers_simd
    rw [getD_range_map _ _ _ i hit, if_pos hic, hx, hy]
  · unfold calculate_effects_into_buffers_simd
    rw [getD_range_map _ _ _ i his, if_pos hic, hx, hy]

/-- Concrete instance of C3: a one-star pool at the origin at time 0. -/
theorem effects_bounds_and_storage_witness :
    0 ≤ sparkle_calc (fun _ => 0) 0 0 0 ∧ sparkle_calc (fun _ => 0) 0 0 0 ≤ 1 ∧
    (sparkle_phase_calc (fun _ => 0) 0 0 0 ≤ 98 / 100 →
      sparkle_calc (fun _ => 0) 0 0 0 = 0) ∧
    2 / 5 ≤ twinkle_base_calc (fun _ => 0) 0 0 0 ∧
    twinkle_base_calc (fun _ => 0) 0 0 0 ≤ 1 ∧
    (calculate_effects_into_buffers_simd (fun _ => 0) [0] [0] [1] [0] 1 0).1.getD 0 0
      = twinkle_base_calc (fun _ => 0) 0 0 0 + sparkle_calc (fun _ => 0) 0 0 0 ∧
    (calculate_effects_into_buffers_simd (fun _ => 0) [0] [0] [1] [0] 1 0).2.getD 0 0
      = sparkle_calc (fun _ => 0) 0 0 0 :=
  effects_bounds_and_storage (fun _ => 0) (fun q => by norm_num) 0 0 0
    [0] [0] [1] [0] 1 0 (by norm_num) (by norm_num) (by norm_num) rfl rfl

/-- `StarMemoryPool` (`star_field.rs` lines 30-48): pure Structure-of-Arrays
per-star attribute buffers plus the bitpacked visibility words and the
logical star count. -/
structure StarMemoryPool where
  positions_x : List ℚ
  positions_y : List ℚ
  positions_z : List ℚ
  colors_r : List ℚ
  colors_g : List ℚ
  colors_b : List ℚ
  sizes : List ℚ
  twinkles : List ℚ
  sparkles : List ℚ
  visibility_mask : List ℕ
  count : ℕ

/-- `FrameUpdateResult` (`star_field.rs` lines 1402-1409). -/
structure FrameUpdateResult where
  visible_count : ℕ
  positions_dirty : Bool
  effects_dirty : Bool
  culling_dirty : Bool

/-- `calculate_speed_multiplier` (`star_field.rs` lines 1014-1039): a fixed
8× movement boost, a click boost decaying linearly from 9× to 1× over
`0.5 s`, their product capped at `15.0`, eased toward from
`current_multiplier` with lerp factor `0.2`. -/
def calculate_speed_multiplier (is_moving : Bool) (click_time current_time : ℚ)
    (current_multiplier : ℚ) : ℚ :=
  let movement_boost : ℚ := if is_moving then 8 else 1
  let time_since_click := current_time - click_time
  let click_boost : ℚ :=
    if time_since_click < 1 / 2 then
      let click_decay := 1 - time_since_click / (1 / 2)
      1 + 8 * click_decay
    else 1
  let combined_boost := movement_boost * click_boost
  let speed_multiplier := min combined_boost 15
  current_multiplier + (speed_multiplier - current_multiplier) * (2 / 10)

/-- `update_frame_simd` (`star_field.rs` lines 1413-1470).  The thread-local
pool becomes an explicit `Option StarMemoryPool` argument; the raw
`camera_matrix_ptr` is modelled by its only observable property, nullness.
On an initialized pool it computes (and discards) the speed multiplier,
rewrites the twinkle/sparkle buffers in place via
`calculate_effects_into_buffers_simd`, performs no culling (both branches of
the camera test yield `count`), and reports the dirty flags; on an
uninitialized pool it reports zeros and touches nothing. -/
def update_frame_simd (s : ℚ → ℚ) (pool : Option StarMemoryPool)
    (time _delta_time : ℚ) (camera_matrix_null : Bool) (is_moving : Bool)
    (click_time current_speed_multiplier : ℚ) :
    Option StarMemoryPool × FrameUpdateResult :=
  match pool with
  | some p =>
      let count := p.count
      let _speed_multiplier :=
        calculate_speed_multiplier is_moving click_time time current_speed_multiplier
      let effects := calculate_effects_into_buffers_simd s p.positions_x p.positions_y
        p.twinkles p.sparkles count time
      let visible_count := if camera_matrix_null = false then count else count
      (some { p with twinkles := effects.1, sparkles := effects.2 },
        { visible_count := visible_count, positions_dirty := true,
          effects_dirty := true, culling_dirty := false })
  | none =>
      (none, { visible_count := 0, positions_dirty := false,
               effects_dirty := false, culling_dirty := false })

/-- C4: on an initialized pool, `update_frame_simd` modifies at most the
twinkle and sparkle buffers: positions, colors, sizes, the visibility mask
and the star count of the resulting pool are unchanged, for every argument
tuple. -/
theorem update_frame_simd_touches_only_effects (s : ℚ → ℚ)
    (p : StarMemoryPool) (time delta_time : ℚ) (camera_matrix_null : Bool)
    (is_moving : Bool) (click_time current_speed_multiplier : ℚ) :
    ∃ p' : StarMemoryPool,
      (update_frame_simd s (some p) time delta_time camera_matrix_null
          is_moving click_time current_speed_multiplier).1 = some p' ∧
      p'.positions_x = p.positions_x ∧ p'.positions_y = p.positions_y ∧
      p'.positions_z = p.positions_z ∧ p'.colors_r = p.colors_r ∧
      p'.colors_g = p.colors_g ∧ p'.colors_b = p.colors_b ∧
      p'.sizes = p.sizes ∧ p'.visibility_mask = p.visibility_mask ∧
      p'.count = p.count :=
  ⟨_, rfl, rfl, rfl, rfl, rfl, rfl, rfl, rfl, rfl, rfl⟩

/-- C10: with no initialized pool, `update_frame_simd` returns
`visible_count = 0` with all three dirty flags `false`, and the state stays
uninitialized — no buffer is created or written. -/
theorem update_frame_simd_uninitialized (s : ℚ → ℚ)
    (time delta_time : ℚ) (camera_matrix_null : Bool) (is_moving : Bool)
    (click_time current_speed_multiplier : ℚ) :
    update_frame_simd s none time delta_time camera_matrix_null is_moving
        click_time current_speed_multiplier =
      (none, { visible_count := 0, positions_dirty := false,
               effects_dirty := false, culling_dirty := false }) := rfl

/-- C8: `calculate_speed_multiplier` returns
`current + (target - current) * 0.2` with
`target = min (movement_boost * click_boost) 15`,
`movement_boost = 8` when moving else `1`, and
`click_boost = 1 + 8 * (1 - (now - click)/0.5)` inside the half-second
window, else `1`. -/
theorem calculate_speed_multiplier_spec (is_moving : Bool)
    (click_time current_time current_multiplier : ℚ) :
    calculate_speed_multiplier is_moving click_time current_time current_multiplier =
      current_multiplier +
        (min ((if is_moving then (8 : ℚ) else 1) *
            (if current_time - click_time < 1 / 2 then
              1 + 8 * (1 - (current_time - click_time) / (1 / 2))
            else 1)) 15 - current_multiplier) * (2 / 10) := rfl

/-- A frustum plane `(a, b, c, d)`: unit-ish normal plus distance. -/
structure Plane where
  a : ℚ
  b : ℚ
  c : ℚ
  d : ℚ

/-- Signed distance of point `(x, y, z)` to a plane:
`a*x + b*y + c*z + d` (`star_field.rs` lines 844-847, 879, 1189, 1213). -/
def plane_dist (p : Plane) (x y z : ℚ) : ℚ := p.a * x + p.b * y + p.c * z + p.d

/-- `extract_frustum_planes` (`star_field.rs` lines 894-916); the two cull
functions inline the identical six expressions (lines 789-796, 1135-1142).
Out-of-range reads default to `0` (the callers guarantee 16 elements). -/
def extract_frustum_planes (m : List ℚ) : List Plane :=
  let g := fun (i : ℕ) => m.getD i 0
  [⟨g 3 + g 0, g 7 + g 4, g 11 + g 8, g 15 + g 12⟩,
   ⟨g 3 - g 0, g 7 - g 4, g 11 - g 8, g 15 - g 12⟩,
   ⟨g 3 + g 1, g 7 + g 5, g 11 + g 9, g 15 + g 13⟩,
   ⟨g 3 - g 1, g 7 - g 5, g 11 - g 9, g 15 - g 13⟩,
   ⟨g 3 + g 2, g 7 + g 6, g 11 + g 10, g 15 + g 14⟩,
   ⟨g 3 - g 2, g 7 - g 6, g 11 - g 10, g 15 - g 14⟩]

/-- The inline normalization of both cull functions (`star_field.rs` lines
798-809 and 1144-1155): divide by the library square root of `a²+b²+c²` when
that is positive, otherwise keep the zero-initialized plane.  `f32::sqrt` is
modelled by the abstract parameter `rs`. -/
def normalize_plane_inline (rs : ℚ → ℚ) (p : Plane) : Plane :=
  let length := rs (p.a * p.a + p.b * p.b + p.c * p.c)
  if length > 0 then ⟨p.a / length, p.b / length, p.c / length, p.d / length⟩
  else ⟨0, 0, 0, 0⟩

/-- `normalize_plane` (`star_field.rs` lines 919-927), used by
`get_visible_star_indices`: same division but the plane is left **unchanged**
(not zeroed) when the length is not positive. -/
def normalize_plane (rs : ℚ → ℚ) (p : Plane) : Plane :=
  let length := rs (p.a * p.a + p.b * p.b + p.c * p.c)
  if length > 0 then ⟨p.a / length, p.b / length, p.c / length, p.d / length⟩
  else p

/-- The six extracted-and-normalized planes of the cull functions. -/
def normalized_frustum_planes (rs : ℚ → ℚ) (m : List ℚ) : List Plane :=
  (extract_frustum_planes m).map (normalize_plane_inline rs)

/-- Star coordinates from the interleaved `positions` argument
(`positions[i*3]`, `positions[i*3+1]`, `positions[i*3+2]`). -/
def star_pos_x (positions : List ℚ) (i : ℕ) : ℚ := positions.getD (i * 3) 0

def star_pos_y (positions : List ℚ) (i : ℕ) : ℚ := positions.getD (i * 3 + 1) 0

def star_pos_z (positions : List ℚ) (i : ℕ) : ℚ := positions.getD (i * 3 + 2) 0

/-- The visibility predicate of the specification: the star is visible iff its
signed distance to each of the six planes is at least `-margin`. -/
def visPred (planes : List Plane) (margin x y z : ℚ) : Prop :=
  ∀ p ∈ planes, -margin ≤ plane_dist p x y z

/-- The scalar-remainder test (`star_field.rs` lines 877-884, 1210-1219):
start from `inside = true` and clear it when some distance is `< -margin`
(the early `break` makes this the conjunction over all planes). -/
def star_inside_scalar (planes : List Plane) (margin x y z : ℚ) : Bool :=
  planes.all (fun p => !decide (plane_dist p x y z < -margin))

/-- One SIMD lane of the bitpacked chunk test (`star_field.rs` lines
835-854): start from a true mask and AND in `distance ≥ -margin` per plane. -/
def star_inside_lane (planes : List Plane) (margin x y z : ℚ) : Bool :=
  planes.foldl (fun acc p => acc && decide (-margin ≤ plane_dist p x y z)) true

theorem foldl_and_eq_all (f : Plane → Bool) (l : List Plane) (b : Bool) :
    l.foldl (fun acc p => acc && f p) b = (b && l.all f) := by
  induction l generalizing b with
  | nil => simp
  | cons p l ih => simp [List.foldl_cons, ih, Bool.and_assoc]

theorem star_inside_lane_iff (planes : List Plane) (margin x y z : ℚ) :
    star_inside_lane planes margin x y z = true ↔ visPred planes margin x y z := by
  unfold star_inside_lane visPred
  rw [foldl_and_eq_all]
  simp

theorem star_inside_scalar_iff (planes : List Plane) (margin x y z : ℚ) :
    star_inside_scalar planes margin x y z = true ↔ visPred planes margin x y z := by
  unfold star_inside_scalar visPred
  simp [not_lt]

theorem star_inside_lane_eq_scalar (planes : List Plane) (margin x y z : ℚ) :
    star_inside_lane planes margin x y z = star_inside_scalar planes margin x y z := by
  rw [Bool.eq_iff_iff, star_inside_lane_iff, star_inside_scalar_iff]

/-- All `u64` bits set; the `u64` complement `!x` is `u64max ^^^ x`. -/
def u64max : ℕ := 2 ^ 64 - 1

/-- `set_visibility_bit` (`star_field.rs` lines 744-755): word `k/64`,
bit `k%64`; OR in the single-bit mask to set, AND with its `u64` complement to
clear; silently ignore out-of-range words. -/
def set_visibility_bit (visibility_mask : List ℕ) (star_index : ℕ)
    (visible : Bool) : List ℕ :=
  let word_index := star_index / 64
  let bit_index := star_index % 64
  if word_index < visibility_mask.length then
    if visible then
      visibility_mask.set word_index
        (visibility_mask.getD word_index 0 ||| (1 <<< bit_index))
    else
      visibility_mask.set word_index
        (visibility_mask.getD word_index 0 &&& (u64max ^^^ (1 <<< bit_index)))
  else visibility_mask

/-- Reading star `k`'s visibility back through the packing scheme
(word `k/64`, bit `k%64`). -/
def read_visibility_bit (mask : List ℕ) (k : ℕ) : Bool :=
  (mask.getD (k / 64) 0).testBit (k % 64)

theorem set_visibility_bit_length (m : List ℕ) (i : ℕ) (v : Bool) :
    (set_visibility_bit m i v).length = m.length := by
  unfold set_visibility_bit
  dsimp only
  split
  · split <;> simp
  · rfl

theorem read_set_visibility_bit_same (m : List ℕ) (k : ℕ) (v : Bool)
    (h : k / 64 < m.length) :
    read_visibility_bit (set_visibility_bit m k v) k = v := by
  have hb : k % 64 < 64 := Nat.mod_lt _ (by norm_num)
  unfold read_visibility_bit set_visibility_bit
  dsimp only
  rw [if_pos h]
  cases v
  case false =>
    rw [if_neg Bool.false_ne_true, List.getD_eq_getElem?_getD,
      List.getElem?_set_self h, Option.getD_some, Nat.testBit_and,
      Nat.testBit_xor, Nat.one_shiftLeft, Nat.testBit_two_pow_self]
    unfold u64max
    rw [Nat.testBit_two_pow_sub_one]
    simp [hb]
  case true =>
    rw [if_pos rfl, List.getD_eq_getElem?_getD, List.getElem?_set_self h,
      Option.getD_some, Nat.testBit_or, Nat.one_shiftLeft,
      Nat.testBit_two_pow_self]
    simp

theorem read_set_visibility_bit_other (m : List ℕ) (k j : ℕ) (v : Bool)
    (hjk : j ≠ k) :
    read_visibility_bit (set_visibility_bit m k v) j = read_visibility_bit m j := by
  unfold read_visibility_bit set_visibility_bit
  dsimp only
  by_cases hw : k / 64 < m.length
  · rw [if_pos hw]
    by_cases hww : j / 64 = k / 64
    · have hbb : j % 64 ≠ k % 64 := fun hb => hjk (by omega)
      have hb64 : j % 64 < 64 := Nat.mod_lt _ (by norm_num)
      cases v
      · rw [if_neg Bool.false_ne_true, hww, List.getD_eq_getElem?_getD,
          List.getElem?_set_self hw, Option.getD_some, Nat.testBit_and,
          Nat.testBit_xor, Nat.one_shiftLeft,
          Nat.testBit_two_pow_of_ne (fun h => hbb h.symm)]
        unfold u64max
        rw [Nat.testBit_two_pow_sub_one]
        simp [hb64, List.getD_eq_getElem?_getD]
      · rw [if_pos rfl, hww, List.getD_eq_getElem?_getD,
          List.getElem?_set_self hw, Option.getD_some, Nat.testBit_or,
          Nat.one_shiftLeft, Nat.testBit_two_pow_of_ne (fun h => hbb h.symm)]
        simp [List.getD_eq_getElem?_getD]
    · have hne : k / 64 ≠ j / 64 := fun h => hww h.symm
      cases v
      · rw [if_neg Bool.false_ne_true, List.getD_eq_getElem?_getD,
          List.getElem?_set_ne hne]
        simp [List.getD_eq_getElem?_getD]
      · rw [if_pos rfl, List.getD_eq_getElem?_getD, List.getElem?_set_ne hne]
        simp [List.getD_eq_getElem?_getD]
  · rw [if_neg hw]

/-- A run of per-star bit writes with value function `f`, over star indices
`start ≤ i < start + n` — the common shape of both the chunk writes and the
scalar remainder loop of `cull_stars_by_frustum_bitpacked`. -/
def set_bits_loop (f : ℕ → Bool) (start n : ℕ) (mask : List ℕ) : List ℕ :=
  (List.range' start n).foldl (fun m i => set_visibility_bit m i (f i)) mask

theorem set_bits_loop_succ (f : ℕ → Bool) (start n : ℕ) (mask : List ℕ) :
    set_bits_loop f start (n + 1) mask =
      set_bits_loop f (start + 1) n (set_visibility_bit mask start (f start)) := by
  unfold set_bits_loop
  rw [List.range'_succ, List.foldl_cons]

theorem set_bits_loop_length (f : ℕ → Bool) (start n : ℕ) (mask : List ℕ) :
    (set_bits_loop f start n mask).length = mask.length := by
  induction n generalizing start mask with
  | zero => rfl
  | succ n ih => rw [set_bits_loop_succ, ih, set_visibility_bit_length]

theorem read_set_bits_loop (f : ℕ → Bool) (start n : ℕ) (mask : List ℕ) (k : ℕ) :
    read_visibility_bit (set_bits_loop f start n mask) k =
      if start ≤ k ∧ k < start + n ∧ k / 64 < mask.length then f k
      else read_visibility_bit mask k := by
  induction n generalizing start mask with
  | zero =>
      rw [show set_bits_loop f start 0 mask = mask from rfl, if_neg (by omega)]
  | succ n ih =>
      rw [set_bits_loop_succ, ih (start + 1) (set_visibility_bit mask start (f start)),
        set_visibility_bit_length]
      by_cases hk : k = start
      · subst hk
        rw [if_neg (by omega)]
        by_cases hw : k / 64 < mask.length
        · rw [read_set_visibility_bit_same mask k (f k) hw,
            if_pos ⟨le_rfl, by omega, hw⟩]
        · have hid : set_visibility_bit mask k (f k) = mask := by
            unfold set_visibility_bit
            dsimp only
            rw [if_neg hw]
          rw [hid, if_neg (fun h => hw h.2.2)]
      · rw [read_set_visibility_bit_other mask start k (f start) hk]
        by_cases hc : start + 1 ≤ k ∧ k < start + 1 + n ∧ k / 64 < mask.length
        · rw [if_pos hc, if_pos ⟨by omega, by omega, hc.2.2⟩]
        · rw [if_neg hc, if_neg (fun h => hc ⟨by omega, by omega, h.2.2⟩)]

/-- `set_visibility_bits_simd` (`star_field.rs` lines 761-768): set 8
consecutive visibility bits from a packed byte, one `set_visibility_bit` per
star, reading lane `i` as `(bits >> i) & 1 != 0`. -/
def set_visibility_bits_simd (visibility_mask : List ℕ) (start_index : ℕ)
    (visibility_bits : ℕ) : List ℕ :=
  (List.range 8).foldl (fun m i =>
    set_visibility_bit m (start_index + i) (((visibility_bits >>> i) &&& 1) != 0))
    visibility_mask

/-- The packed byte built from one 8-lane chunk of
`cull_stars_by_frustum_bitpacked` (`star_field.rs` lines 856-863):
`bits |= 1 << i` for each inside lane. -/
def chunk_visibility_bits (planes : List Plane) (margin : ℚ) (positions : List ℚ)
    (base : ℕ) : ℕ :=
  (List.range 8).foldl (fun acc i =>
    if star_inside_lane planes margin (star_pos_x positions (base + i))
        (star_pos_y positions (base + i)) (star_pos_z positions (base + i))
    then acc ||| (1 <<< i) else acc) 0

theorem foldl_step_congr {α β : Type} (l : List β) (g h : α → β → α) (b : α)
    (H : ∀ a x, x ∈ l → g a x = h a x) : l.foldl g b = l.foldl h b := by
  induction l generalizing b with
  | nil => rfl
  | cons x l ih =>
      rw [List.foldl_cons, List.foldl_cons, H _ _ (List.mem_cons_self _ _)]
      exact ih _ (fun a y hy => H a y (List.mem_cons_of_mem _ hy))

theorem bits_foldl_testBit (g : ℕ → Bool) (n : ℕ) (acc : ℕ) (j : ℕ) :
    ((List.range n).foldl (fun acc i => if g i then acc ||| (1 <<< i) else acc)
      acc).testBit j = ((decide (j < n) && g j) || acc.testBit j) := by
  induction n generalizing acc with
  | zero => simp
  | succ n ih =>
      rw [List.range_succ, List.foldl_append, List.foldl_cons, List.foldl_nil]
      by_cases hg : g n
      · rw [if_pos hg, Nat.testBit_or, ih, Nat.one_shiftLeft]
        by_cases hj : j = n
        · subst hj
          rw [Nat.testBit_two_pow_self]
          simp [hg]
        · rw [Nat.testBit_two_pow_of_ne (fun h => hj h.symm)]
          have hiff : j < n + 1 ↔ j < n := by omega
          simp [hiff]
      · rw [if_neg hg, ih]
        by_cases hj : j = n
        · subst hj
          simp [hg]
        · have hiff : j < n + 1 ↔ j < n := by omega
          simp [hiff]

theorem shift_and_one_bne (x i : ℕ) : (((x >>> i) &&& 1) != 0) = x.testBit i := by
  simp [Nat.testBit, Nat.and_one_is_mod, Nat.one_and_eq_mod_two]

/-- Feeding the packed chunk byte to the bulk setter is the same as setting
the 8 stars' bits one by one with the lane predicate. -/
theorem set_visibility_bits_simd_chunk (planes : List Plane) (margin : ℚ)
    (positions : List ℚ) (base : ℕ) (mask : List ℕ) :
    set_visibility_bits_simd mask base (chunk_visibility_bits planes margin positions base)
      = set_bits_loop (fun i => star_inside_lane planes margin (star_pos_x positions i)
          (star_pos_y positions i) (star_pos_z positions i)) base 8 mask := by
  unfold set_visibility_bits_simd set_bits_loop
  rw [List.range'_eq_map_range, List.foldl_map]
  apply foldl_step_congr
  intro m i hi
  have hi8 : i < 8 := List.mem_range.mp hi
  congr 1
  rw [shift_and_one_bne]
  unfold chunk_visibility_bits
  rw [bits_foldl_testBit]
  simp [hi8]

/-- Rust's `usize::div_ceil`. -/
def div_ceil (n k : ℕ) : ℕ := (n + k - 1) / k

/-- `cull_stars_by_frustum_bitpacked` (`star_field.rs` lines 774-890): on a
malformed matrix return `ceil(count/64)` all-ones words; otherwise extract
and normalize the six planes, process `count / 8` chunks of 8 stars through
the SIMD lane test and the packed-byte bulk setter, then finish the
remainder with the scalar test, writing one bit per star into an initially
all-zero word vector. -/
def cull_stars_by_frustum_bitpacked (rs : ℚ → ℚ) (positions : List ℚ)
    (count : ℕ) (camera_matrix : List ℚ) (margin : ℚ) : List ℕ :=
  if camera_matrix.length ≠ 16 then List.replicate (div_ceil count 64) u64max
  else
    let planes := normalized_frustum_planes rs camera_matrix
    let init : List ℕ := List.replicate (div_ceil count 64) 0
    let after_chunks := (List.range (count / 8)).foldl (fun m chunk =>
      set_visibility_bits_simd m (chunk * 8)
        (chunk_visibility_bits planes margin positions (chunk * 8))) init
    (List.range' (count / 8 * 8) (count - count / 8 * 8)).foldl (fun m i =>
      set_visibility_bit m i (star_inside_scalar planes margin
        (star_pos_x positions i) (star_pos_y positions i)
        (star_pos_z positions i))) after_chunks

theorem set_bits_loop_append (f : ℕ → Bool) (s m n : ℕ) (mask : List ℕ) :
    set_bits_loop f (s + m) n (set_bits_loop f s m mask) =
      set_bits_loop f s (m + n) mask := by
  unfold set_bits_loop
  rw [← List.foldl_append, List.range'_append_1, Nat.add_comm n m]

theorem chunks_fold_eq (planes : List Plane) (margin : ℚ) (positions : List ℚ)
    (c : ℕ) (mask : List ℕ) :
    (List.range c).foldl (fun m chunk =>
        set_visibility_bits_simd m (chunk * 8)
          (chunk_visibility_bits planes margin positions (chunk * 8))) mask
      = set_bits_loop (fun i => star_inside_lane planes margin
          (star_pos_x positions i) (star_pos_y positions i)
          (star_pos_z positions i)) 0 (c * 8) mask := by
  induction c with
  | zero =>
      show mask = set_bits_loop _ 0 (0 * 8) mask
      rw [Nat.zero_mul]
      rfl
  | succ c ih =>
      rw [List.range_succ, List.foldl_append, List.foldl_cons, List.foldl_nil, ih,
        set_visibility_bits_simd_chunk]
      have h := set_bits_loop_append (fun i => star_inside_lane planes margin
        (star_pos_x positions i) (star_pos_y positions i)
        (star_pos_z positions i)) 0 (c * 8) 8 mask
      rw [Nat.zero_add] at h
      rw [h, Nat.succ_mul]

/-- What `cull_stars_by_frustum_bitpacked` leaves in bit `k` for a valid
camera matrix: exactly the scalar inside test (the SIMD chunk lanes compute
the same Boolean, cf. `star_inside_lane_eq_scalar`). -/
theorem read_cull_bitpacked (rs : ℚ → ℚ) (positions : List ℚ) (count : ℕ)
    (camera_matrix : List ℚ) (margin : ℚ) (hm : camera_matrix.length = 16)
    (k : ℕ) (hk : k < count) :
    read_visibility_bit
        (cull_stars_by_frustum_bitpacked rs positions count camera_matrix margin) k
      = star_inside_scalar (normalized_frustum_planes rs camera_matrix) margin
          (star_pos_x positions k) (star_pos_y positions k)
          (star_pos_z positions k) := by
  unfold cull_stars_by_frustum_bitpacked
  rw [if_neg (by simp [hm])]
  dsimp only
  rw [chunks_fold_eq]
  have hfun : (fun i => star_inside_lane (normalized_frustum_planes rs camera_matrix)
        margin (star_pos_x positions i) (star_pos_y positions i)
        (star_pos_z positions i))
      = (fun i => star_inside_scalar (normalized_frustum_planes rs camera_matrix)
        margin (star_pos_x positions i) (star_pos_y positions i)
        (star_pos_z positions i)) :=
    funext (fun i => star_inside_lane_eq_scalar _ _ _ _ _)
  rw [hfun]
  rw [show ((List.range' (count / 8 * 8) (count - count / 8 * 8)).foldl (fun m i =>
      set_visibility_bit m i (star_inside_scalar
        (normalized_frustum_planes rs camera_matrix) margin
        (star_pos_x positions i) (star_pos_y positions i)
        (star_pos_z positions i)))
      (set_bits_loop (fun i => star_inside_scalar
        (normalized_frustum_planes rs camera_matrix) margin
        (star_pos_x positions i) (star_pos_y positions i)
        (star_pos_z positions i)) 0 (count / 8 * 8)
        (List.replicate (div_ceil count 64) 0)))
      = set_bits_loop (fun i => star_inside_scalar
        (normalized_frustum_planes rs camera_matrix) margin
        (star_pos_x positions i) (star_pos_y positions i)
        (star_pos_z positions i)) (count / 8 * 8) (count - count / 8 * 8)
        (set_bits_loop (fun i => star_inside_scalar
          (normalized_frustum_planes rs camera_matrix) margin
          (star_pos_x positions i) (star_pos_y positions i)
          (star_pos_z positions i)) 0 (count / 8 * 8)
          (List.replicate (div_ceil count 64) 0)) from rfl]
  have happ := set_bits_loop_append (fun i => star_inside_scalar
    (normalized_frustum_planes rs camera_matrix) margin
    (star_pos_x positions i) (star_pos_y positions i)
    (star_pos_z positions i)) 0 (count / 8 * 8) (count - count / 8 * 8)
    (List.replicate (div_ceil count 64) 0)
  rw [Nat.zero_add] at happ
  rw [happ, show count / 8 * 8 + (count - count / 8 * 8) = count from by omega]
  rw [read_set_bits_loop]
  rw [if_pos ⟨Nat.zero_le _, by omega, by
    rw [List.length_replicate]
    unfold div_ceil
    omega⟩]

/-- One SIMD lane of `cull_stars_by_frustum_simd` (`star_field.rs` lines
1180-1194): start from `1.0` and multiply by `0.0`/`1.0` per plane according
to `distance < -margin`. -/
def cull_lane_value (planes : List Plane) (margin x y z : ℚ) : ℚ :=
  planes.foldl (fun acc p =>
    acc * (if plane_dist p x y z < -margin then 0 else 1)) 1

theorem cull_lane_value_foldl (planes : List Plane) (margin x y z : ℚ) (acc : ℚ) :
    planes.foldl (fun acc p =>
        acc * (if plane_dist p x y z < -margin then 0 else 1)) acc
      = acc * (if planes.all (fun p => !decide (plane_dist p x y z < -margin))
          then 1 else 0) := by
  induction planes generalizing acc with
  | nil => simp
  | cons p l ih =>
      rw [List.foldl_cons, ih]
      by_cases hp : plane_dist p x y z < -margin
      · simp [hp]
      · simp [hp, mul_assoc]

theorem cull_lane_value_eq (planes : List Plane) (margin x y z : ℚ) :
    cull_lane_value planes margin x y z
      = if star_inside_scalar planes margin x y z then 1 else 0 := by
  unfold cull_lane_value star_inside_scalar
  rw [cull_lane_value_foldl, one_mul]

/-- `cull_stars_by_frustum_simd` (`star_field.rs` lines 1121-1225): on a
malformed matrix return `count` ones; otherwise one byte per star —
the 16-wide chunks store `1` iff the lane product stays above `0.5`, the
scalar remainder stores `1` iff the inside test passes.  Every index below
`count` of the initially zeroed byte vector is written exactly once. -/
def cull_stars_by_frustum_simd (rs : ℚ → ℚ) (positions : List ℚ) (count : ℕ)
    (camera_matrix : List ℚ) (margin : ℚ) : List ℕ :=
  if camera_matrix.length ≠ 16 then List.replicate count 1
  else
    let planes := normalized_frustum_planes rs camera_matrix
    (List.range count).map (fun i =>
      if i < count / 16 * 16 then
        (if cull_lane_value planes margin (star_pos_x positions i)
            (star_pos_y positions i) (star_pos_z positions i) > 1 / 2
         then 1 else 0)
      else
        (if star_inside_scalar planes margin (star_pos_x positions i)
            (star_pos_y positions i) (star_pos_z positions i)
         then 1 else 0))

theorem cull_simd_getD (rs : ℚ → ℚ) (positions : List ℚ) (count : ℕ)
    (camera_matrix : List ℚ) (margin : ℚ) (hm : camera_matrix.length = 16)
    (i : ℕ) (hi : i < count) :
    (cull_stars_by_frustum_simd rs positions count camera_matrix margin).getD i 0
      = if star_inside_scalar (normalized_frustum_planes rs camera_matrix) margin
            (star_pos_x positions i) (star_pos_y positions i)
            (star_pos_z positions i)
        then 1 else 0 := by
  unfold cull_stars_by_frustum_simd
  rw [if_neg (by simp [hm])]
  dsimp only
  rw [getD_range_map _ _ _ i hi]
  split
  · rw [cull_lane_value_eq]
    by_cases h : star_inside_scalar (normalized_frustum_planes rs camera_matrix)
        margin (star_pos_x positions i) (star_pos_y positions i)
        (star_pos_z positions i)
    · rw [if_pos h, if_pos h, if_pos (by norm_num)]
    · rw [if_neg h, if_neg h, if_neg (by norm_num)]
  · rfl

/-- `get_visible_star_indices` (`star_field.rs` lines 1045-1089): on a
malformed matrix return every index `0..count`; otherwise filter the indices
by the scalar inside test against the planes normalized by
`normalize_plane` (the keep-original variant). -/
def get_visible_star_indices (rs : ℚ → ℚ) (positions : List ℚ) (count : ℕ)
    (camera_matrix : List ℚ) (margin : ℚ) : List ℕ :=
  if camera_matrix.length ≠ 16 then List.range count
  else
    let planes := (extract_frustum_planes camera_matrix).map (normalize_plane rs)
    (List.range count).filter (fun i =>
      star_inside_scalar planes margin (star_pos_x positions i)
        (star_pos_y positions i) (star_pos_z positions i))

/-- C5: with a 16-element camera matrix, both culling paths classify star
`i < count` visible exactly when its signed distance to each of the six
extracted-and-normalized frustum planes is at least `-margin` — the bitpacked
function (whose SIMD chunks and scalar remainder both reduce to this
predicate) in bit `i` of its word vector, and the byte-mask function in entry
`i`. -/
theorem cull_implements_plane_predicate (rs : ℚ → ℚ) (positions : List ℚ)
    (count : ℕ) (camera_matrix : List ℚ) (margin : ℚ) (i : ℕ)
    (hm : camera_matrix.length = 16) (hi : i < count) :
    (read_visibility_bit
        (cull_stars_by_frustum_bitpacked rs positions count camera_matrix margin) i
          = true
      ↔ visPred (normalized_frustum_planes rs camera_matrix) margin
          (star_pos_x positions i) (star_pos_y positions i)
          (star_pos_z positions i)) ∧
    ((cull_stars_by_frustum_simd rs positions count camera_matrix margin).getD i 0 = 1
      ↔ visPred (normalized_frustum_planes rs camera_matrix) margin
          (star_pos_x positions i) (star_pos_y positions i)
          (star_pos_z positions i)) := by
  constructor
  · rw [read_cull_bitpacked rs positions count camera_matrix margin hm i hi,
      star_inside_scalar_iff]
  · rw [cull_simd_getD rs positions count camera_matrix margin hm i hi,
      ← star_inside_scalar_iff]
    cases h : star_inside_scalar (normalized_frustum_planes rs camera_matrix) margin
        (star_pos_x positions i) (star_pos_y positions i)
        (star_pos_z positions i) <;> simp [h]

/-- Concrete instance of C5: a single star at the origin against an all-zero
(but 16-element) matrix with zero margin is classified visible by both
culling paths. -/
theorem cull_implements_plane_predicate_witness :
    (read_visibility_bit
        (cull_stars_by_frustum_bitpacked (fun _ => 1) [] 1
          (List.replicate 16 0) 0) 0 = true
      ↔ visPred (normalized_frustum_planes (fun _ => 1) (List.replicate 16 0)) 0
          (star_pos_x [] 0) (star_pos_y [] 0) (star_pos_z [] 0)) ∧
    ((cull_stars_by_frustum_simd (fun _ => 1) [] 1
        (List.replicate 16 0) 0).getD 0 0 = 1
      ↔ visPred (normalized_frustum_planes (fun _ => 1) (List.replicate 16 0)) 0
          (star_pos_x [] 0) (star_pos_y [] 0) (star_pos_z [] 0)) :=
  cull_implements_plane_predicate (fun _ => 1) [] 1 (List.replicate 16 0) 0 0
    (by simp) (by norm_num)

/-- C6: for a camera matrix slice whose length is not 16, all three culling
entry points degrade to all-visible: the bitpacked function returns
`ceil(count/64)` all-ones words, the byte-mask function returns `count` ones,
and the index function returns every index `0..count`. -/
theorem cull_invalid_matrix_all_visible (rs : ℚ → ℚ) (positions : List ℚ)
    (count : ℕ) (camera_matrix : List ℚ) (margin : ℚ)
    (hm : camera_matrix.length ≠ 16) :
    cull_stars_by_frustum_bitpacked rs positions count camera_matrix margin
        = List.replicate (div_ceil count 64) u64max ∧
    cull_stars_by_frustum_simd rs positions count camera_matrix margin
        = List.replicate count 1 ∧
    get_visible_star_indices rs positions count camera_matrix margin
        = List.range count := by
  refine ⟨?_, ?_, ?_⟩
  · unfold cull_stars_by_frustum_bitpacked
    rw [if_pos hm]
  · unfold cull_stars_by_frustum_simd
    rw [if_pos hm]
  · unfold get_visible_star_indices
    rw [if_pos hm]

/-- Concrete instance of C6: an empty camera slice with 130 stars. -/
theorem cull_invalid_matrix_all_visible_witness :
    cull_stars_by_frustum_bitpacked (fun _ => 1) [] 130 [] 0
        = List.replicate (div_ceil 130 64) u64max ∧
    cull_stars_by_frustum_simd (fun _ => 1) [] 130 [] 0
        = List.replicate 130 1 ∧
    get_visible_star_indices (fun _ => 1) [] 130 [] 0 = List.range 130 :=
  cull_invalid_matrix_all_visible (fun _ => 1) [] 130 [] 0 (by norm_num)

/-- C7: for a mask with `k/64` in range, `set_visibility_bit mask k v`
round-trips: reading bit `k % 64` of word `k / 64` back gives `v`, and the
bit of every other star index (every other word/bit position) is unchanged. -/
theorem set_visibility_bit_roundtrip (mask : List ℕ) (k : ℕ) (v : Bool)
    (hk : k / 64 < mask.length) :
    read_visibility_bit (set_visibility_bit mask k v) k = v ∧
    ∀ j, j ≠ k →
      read_visibility_bit (set_visibility_bit mask k v) j = read_visibility_bit mask j :=
  ⟨read_set_visibility_bit_same mask k v hk,
    fun j hj => read_set_visibility_bit_other mask k j v hj⟩

/-- Concrete instance of C7: setting star 70's bit in a two-word mask. -/
theorem set_visibility_bit_roundtrip_witness :
    read_visibility_bit (set_visibility_bit [0, 0] 70 true) 70 = true ∧
    read_visibility_bit (set_visibility_bit [0, 0] 70 true) 3 =
      read_visibility_bit [0, 0] 3 :=
  ⟨(set_visibility_bit_roundtrip [0, 0] 70 true (by norm_num)).1,
    (set_visibility_bit_roundtrip [0, 0] 70 true (by norm_num)).2 3 (by norm_num)⟩

/-- An `f32` value for the NaN analysis of `fast_sin_lookup`: a finite
rational or NaN.  (Infinite inputs are folded into `nan`: `±∞ % 2π` is
already NaN, so they behave identically from the first operation on.) -/
inductive F32 where
  | fin (q : ℚ) : F32
  | nan : F32
deriving DecidableEq

/-- IEEE addition on the model: NaN absorbs. -/
def addF : F32 → F32 → F32
  | F32.fin a, F32.fin b => F32.fin (a + b)
  | _, _ => F32.nan

/-- IEEE multiplication on the model: NaN absorbs. -/
def mulF : F32 → F32 → F32
  | F32.fin a, F32.fin b => F32.fin (a * b)
  | _, _ => F32.nan

/-- IEEE division on the model: NaN absorbs; division by zero (an infinity
in IEEE) is also folded into `nan` (unreachable here: the divisor is `2π`). -/
def divF : F32 → F32 → F32
  | F32.fin a, F32.fin b => if b = 0 then F32.nan else F32.fin (a / b)
  | _, _ => F32.nan

/-- IEEE remainder on the model: NaN absorbs, `x % 0` is NaN. -/
def fremF : F32 → F32 → F32
  | F32.fin a, F32.fin b => if b = 0 then F32.nan else F32.fin (frem a b)
  | _, _ => F32.nan

/-- Rust's saturating `as usize` cast: NaN goes to `0`, negative values clamp
to `0` (`Int.toNat`); the upper clamp is immaterial because the caller takes
`.min (SIN_TABLE_SIZE - 1)` right after. -/
def toUsizeSat : F32 → ℕ
  | F32.nan => 0
  | F32.fin q => Int.toNat ⌊q⌋

/-- `fast_sin_lookup` (`math.rs` lines 45-50) on the NaN-aware value model:
`((x % 2π) + 2π) % 2π`, scaled, cast with the saturating `as usize`, clamped,
and used to read the table — which always yields a finite stored value. -/
def fast_sin_lookup_f (s : ℚ → ℚ) (x : F32) : F32 :=
  let t : F32 := F32.fin (PI32 * 2)
  let normalized := fremF (addF (fremF x t) t) t
  let index :=
    min (toUsizeSat (mulF (divF normalized t) (F32.fin (SIN_TABLE_SIZE : ℚ))))
      (SIN_TABLE_SIZE - 1)
  F32.fin (get_sin_value s index)

/-- On finite inputs the NaN-aware model agrees with the rational model. -/
theorem fast_sin_lookup_f_fin (s : ℚ → ℚ) (x : ℚ) :
    fast_sin_lookup_f s (F32.fin x) = F32.fin (fast_sin_lookup s x) := by
  have ht : (PI32 * 2 : ℚ) ≠ 0 := by norm_num [PI32]
  unfold fast_sin_lookup_f fast_sin_lookup fastSinIdx
  simp [fremF, addF, divF, mulF, toUsizeSat, ht]

/-- C9 counterexample: a NaN input does **not** propagate: `NaN % 2π` is NaN
all the way to the `as usize` cast, but Rust's float-to-integer cast
saturates NaN to `0`, so the lookup returns the finite table entry at index
0 instead of NaN. -/
theorem fast_sin_lookup_nan_counterexample :
    fast_sin_lookup_f (fun _ => 0) F32.nan ≠ F32.nan := by
  decide

/-- C9 (amended): `fast_sin_lookup` returns a finite float for **every**
input, finite or NaN; on NaN the saturating cast selects index 0, so the
result is the table entry at angle 0 (`sin 0 = 0.0`), not NaN. -/
theorem fast_sin_lookup_total (s : ℚ → ℚ) (x : F32) :
    fast_sin_lookup_f s x ≠ F32.nan ∧
    fast_sin_lookup_f s F32.nan = F32.fin (get_sin_value s 0) := by
  constructor
  · unfold fast_sin_lookup_f
    intro h
    exact F32.noConfusion h
  · rfl

/-- Concrete instance of the amended C9 theorem. -/
theorem fast_sin_lookup_total_witness :
    fast_sin_lookup_f (fun _ => 1 / 2) (F32.fin 3) ≠ F32.nan ∧
    fast_sin_lookup_f (fun _ => 1 / 2) F32.nan
      = F32.fin (get_sin_value (fun _ => 1 / 2) 0) :=
  fast_sin_lookup_total (fun _ => 1 / 2) (F32.fin 3)
